import Mathlib

/-!
Shallow embedding of `weppy/tools/auth/models.py` (the auth models of the
weppy framework): the field-visibility resolution engine
(`AuthModel.__hide_all`, `AuthModel.__base_visibility`,
`AuthModel.__define_authform_utils`), the definition pipeline
(`AuthModel._define_`), the account row operations and the before-insert
registration-key hook of `AuthUserBasic`.

The resolver manipulates dynamically typed Python values (the global auth
settings entry may be `None`, a list, a tuple, a string, a dict, ...), so we
embed a fragment of the Python value universe as `PyVal` and translate each
Python primitive (`or`, `isinstance(..., dict)`, `list(...)`, `in`,
`.append`, `.remove`, `list(set(...))`, unpacking) as an explicit operation,
with `Except String` for the exceptions Python would raise (`TypeError`,
`KeyError`, `ValueError`, `AttributeError`).  Python's cross-type numeric
equality (`True == 1`) is not modelled: every equality the auth code performs
compares field names, which are strings.
-/

namespace Weppy

/-- A fragment of the Python value universe, covering the shapes the auth
models manipulate: `None`, booleans, integers, strings, lists, tuples and
string-keyed dicts (entries in insertion order, as in Python). -/
inductive PyVal where
  | vNone : PyVal
  | vBool : Bool → PyVal
  | vInt : Int → PyVal
  | vStr : String → PyVal
  | vList : List PyVal → PyVal
  | vTuple : List PyVal → PyVal
  | vDict : List (String × PyVal) → PyVal
deriving Repr

mutual
/-- Structural equality on `PyVal`, standing in for Python `==` on the
values the auth code compares. -/
def PyVal.eq : PyVal → PyVal → Bool
  | .vNone, .vNone => true
  | .vBool a, .vBool b => a == b
  | .vInt a, .vInt b => a == b
  | .vStr a, .vStr b => a == b
  | .vList a, .vList b => PyVal.eqList a b
  | .vTuple a, .vTuple b => PyVal.eqList a b
  | .vDict a, .vDict b => PyVal.eqEntries a b
  | _, _ => false

def PyVal.eqList : List PyVal → List PyVal → Bool
  | [], [] => true
  | x :: xs, y :: ys => PyVal.eq x y && PyVal.eqList xs ys
  | _, _ => false

def PyVal.eqEntries : List (String × PyVal) → List (String × PyVal) → Bool
  | [], [] => true
  | (k, v) :: xs, (l, w) :: ys => k == l && PyVal.eq v w && PyVal.eqEntries xs ys
  | _, _ => false
end

mutual
theorem PyVal.eq_iff : ∀ (a b : PyVal), PyVal.eq a b = true ↔ a = b
  | .vNone, b => by cases b <;> simp [PyVal.eq]
  | .vBool x, b => by cases b <;> simp [PyVal.eq]
  | .vInt x, b => by cases b <;> simp [PyVal.eq]
  | .vStr x, b => by cases b <;> simp [PyVal.eq]
  | .vList xs, b => by
      cases b <;> simp [PyVal.eq]
      exact PyVal.eqList_iff xs _
  | .vTuple xs, b => by
      cases b <;> simp [PyVal.eq]
      exact PyVal.eqList_iff xs _
  | .vDict es, b => by
      cases b <;> simp [PyVal.eq]
      exact PyVal.eqEntries_iff es _

theorem PyVal.eqList_iff : ∀ (xs ys : List PyVal), PyVal.eqList xs ys = true ↔ xs = ys
  | [], ys => by cases ys <;> simp [PyVal.eqList]
  | x :: xs, [] => by simp [PyVal.eqList]
  | x :: xs, y :: ys => by
      simp only [PyVal.eqList, Bool.and_eq_true, List.cons.injEq]
      rw [PyVal.eq_iff x y, PyVal.eqList_iff xs ys]

theorem PyVal.eqEntries_iff : ∀ (xs ys : List (String × PyVal)),
    PyVal.eqEntries xs ys = true ↔ xs = ys
  | [], ys => by cases ys <;> simp [PyVal.eqEntries]
  | (k, v) :: xs, [] => by simp [PyVal.eqEntries]
  | (k, v) :: xs, (l, w) :: ys => by
      simp only [PyVal.eqEntries, Bool.and_eq_true, List.cons.injEq, Prod.mk.injEq,
        beq_iff_eq]
      rw [PyVal.eq_iff v w, PyVal.eqEntries_iff xs ys]
end

instance : DecidableEq PyVal := fun a b =>
  decidable_of_iff (PyVal.eq a b = true) (PyVal.eq_iff a b)

instance {ε α : Type} [DecidableEq ε] [DecidableEq α] : DecidableEq (Except ε α) :=
  fun a b =>
    match a, b with
    | .ok x, .ok y => decidable_of_iff (x = y) (by simp)
    | .error x, .error y => decidable_of_iff (x = y) (by simp)
    | .ok _, .error _ => isFalse (by simp)
    | .error _, .ok _ => isFalse (by simp)

/-- Python truthiness: `None`, `False`, `0`, `""` and empty collections are
falsy, everything else is truthy. -/
def PyVal.truthy : PyVal → Bool
  | .vNone => false
  | .vBool b => b
  | .vInt n => n != 0
  | .vStr s => s != ""
  | .vList xs => !xs.isEmpty
  | .vTuple xs => !xs.isEmpty
  | .vDict es => !es.isEmpty

/-- Python iteration, as performed by `list(v)` and `set(v)`: lists and
tuples yield their elements, strings their characters, dicts their keys;
other values raise `TypeError`. -/
def PyVal.iterate : PyVal → Except String (List PyVal)
  | .vList xs => .ok xs
  | .vTuple xs => .ok xs
  | .vStr s => .ok (s.toList.map fun c => .vStr (String.mk [c]))
  | .vDict es => .ok (es.map fun e => .vStr e.1)
  | _ => .error "TypeError: object is not iterable"

mutual
/-- Python hashability: lists and dicts are unhashable, tuples are hashable
when all their elements are. -/
def PyVal.hashable : PyVal → Bool
  | .vNone => true
  | .vBool _ => true
  | .vInt _ => true
  | .vStr _ => true
  | .vList _ => false
  | .vTuple xs => PyVal.hashableList xs
  | .vDict _ => false

def PyVal.hashableList : List PyVal → Bool
  | [] => true
  | x :: xs => PyVal.hashable x && PyVal.hashableList xs
end

/-- Python membership test `x in v` for a string `x`: element test for lists
and tuples, substring test for strings, key test for dicts; `TypeError`
otherwise. -/
def pyContains (v : PyVal) (x : String) : Except String Bool :=
  match v with
  | .vList xs => .ok (xs.contains (.vStr x))
  | .vTuple xs => .ok (xs.contains (.vStr x))
  | .vStr s => .ok (if x = "" then true else (s.splitOn x).length > 1)
  | .vDict es => .ok (es.any fun e => e.1 == x)
  | _ => .error "TypeError: argument is not iterable"

/-- Python `v.append(x)`: only lists have `append`. -/
def pyAppend (v : PyVal) (x : PyVal) : Except String PyVal :=
  match v with
  | .vList xs => .ok (.vList (xs ++ [x]))
  | _ => .error "AttributeError: append"

/-- Python `v.remove(x)`: drops the first occurrence of `x` from a list.
The auth code always guards it with `x in v`, so the `ValueError` Python
raises when `x` is absent is unreachable; `List.erase` is the identity
there, matching the guarded use. -/
def pyRemove (v : PyVal) (x : PyVal) : Except String PyVal :=
  match v with
  | .vList xs => .ok (.vList (xs.erase x))
  | _ => .error "AttributeError: remove"

/-- `list(set(v))`: iterate `v`, require every element hashable, keep one
copy of each distinct element.  CPython's set iteration order is
unspecified; we fix first-occurrence order, and every claim about the
result compares it as a set. -/
def pySetList (v : PyVal) : Except String PyVal := do
  let xs ← v.iterate
  if PyVal.hashableList xs then
    .ok (.vList xs.dedup)
  else
    .error "TypeError: unhashable type"

/-- A Python dict with string keys, in insertion order. -/
abbrev PyDict := List (String × PyVal)

/-- Python `d[k]` on a dict: `KeyError` when the key is absent. -/
def dictGet (d : PyDict) (k : String) : Except String PyVal :=
  match d.find? (fun e => e.1 == k) with
  | some e => .ok e.2
  | none => .error "KeyError"

/-- Python `d[k] = v` on a dict: replace in place when the key exists
(keeping its position), append otherwise. -/
def dictSet (d : PyDict) (k : String) (v : PyVal) : PyDict :=
  if d.any (fun e => e.1 == k) then
    d.map (fun e => if e.1 == k then (k, v) else e)
  else d ++ [(k, v)]

/-- One table field with the per-field visibility flags the auth models read
and write (the relevant projection of a weppy `Field`). -/
structure FieldState where
  name : String
  readable : Bool
  writable : Bool
deriving Repr, DecidableEq

/-- The always-visible field list of `AuthModel.__hide_all` (line 57). -/
def alwaysvisible : List String := ["first_name", "last_name", "password", "email"]

/-- `AuthModel.__hide_all` (lines 56-61): set `writable = readable = False`
on every field whose name is not in `alwaysvisible`. -/
def hide_all (table : List FieldState) : List FieldState :=
  table.map fun f =>
    if alwaysvisible.contains f.name then f
    else { f with writable := false, readable := false }

/-- `AuthModel.__base_visibility` (lines 63-70): the names of the currently
writable fields, excluding `password` and `email` when the form type is
`profile_fields`. -/
def base_visibility (table : List FieldState) (form_type : String) : List String :=
  let exclude : List String :=
    if form_type == "profile_fields" then ["password", "email"] else []
  (table.filter fun f => f.writable && !(exclude.contains f.name)).map FieldState.name

/-- Lines 78-81 of `AuthModel.__define_authform_utils`:
`rwdata = self.auth.settings[setting] or self.__base_visibility(setting)`
followed by `if not isinstance(rwdata, dict): rwdata = {'writable':
list(rwdata), 'readable': list(rwdata)}`.  A dict is kept verbatim; any
other value is iterated twice into the two lists. -/
def resolve_rwdata_init (table : List FieldState) (setting : String)
    (settingVal : PyVal) : Except String PyDict :=
  let rwdata := if settingVal.truthy then settingVal
    else .vList ((base_visibility table setting).map PyVal.vStr)
  match rwdata with
  | .vDict es => .ok es
  | other => do
      let ws ← other.iterate
      let rs ← other.iterate
      .ok [("writable", .vList ws), ("readable", .vList rs)]

/-- Lines 83-86: decompose an override value into `(readable, writable)`.
A tuple or list is unpacked (raising `ValueError` unless it has exactly two
elements); any other value is duplicated into both positions. -/
def decompose (value : PyVal) : Except String (PyVal × PyVal) :=
  match value with
  | .vTuple xs | .vList xs =>
    match xs with
    | [r, w] => .ok (r, w)
    | _ => .error "ValueError: unpacking"
  | v => .ok (v, v)

/-- One of the two symmetric blocks of lines 87-96: when the flag is truthy,
`rwdata[key].append(field)`; otherwise `if field in rwdata[key]:
rwdata[key].remove(field)`. -/
def applyFlag (rwdata : PyDict) (key : String) (field : String)
    (flag : PyVal) : Except String PyDict := do
  if flag.truthy then
    let cur ← dictGet rwdata key
    let new ← pyAppend cur (.vStr field)
    .ok (dictSet rwdata key new)
  else
    let cur ← dictGet rwdata key
    let isIn ← pyContains cur field
    if isIn then
      let new ← pyRemove cur (.vStr field)
      .ok (dictSet rwdata key new)
    else
      .ok rwdata

/-- One iteration of the override loop (lines 82-96): decompose the value,
apply the readable flag, then the writable flag. -/
def applyOverride (rwdata : PyDict) (field : String) (value : PyVal) :
    Except String PyDict := do
  let rw ← decompose value
  let rwdata ← applyFlag rwdata "readable" field rw.1
  applyFlag rwdata "writable" field rw.2

/-- Lines 97-98: `for key in iterkeys(rwdata): rwdata[key] =
list(set(rwdata[key]))` — deduplicate the value of every key. -/
def dedupValues : PyDict → Except String PyDict
  | [] => .ok []
  | e :: rest => do
      let v ← pySetList e.2
      let tail ← dedupValues rest
      .ok ((e.1, v) :: tail)

/-- The `for field, value in getattr(self, attr).items()` loop of lines
82-96: apply the overrides to `rwdata` in order. -/
def applyOverrides : List (String × PyVal) → PyDict → Except String PyDict
  | [], d => .ok d
  | e :: rest, d => do
      let d' ← applyOverride d e.1 e.2
      applyOverrides rest d'

/-- The body of the `for setting, attr in settings_map.items()` loop of
`AuthModel.__define_authform_utils` (lines 77-99) for one form context:
normalize the settings value, fold the overrides over it in order,
deduplicate, and return the structure that is stored back into
`auth.settings[setting]`. -/
def define_authform_one (table : List FieldState) (setting : String)
    (settingVal : PyVal) (overrides : List (String × PyVal)) :
    Except String PyVal := do
  let rwdata ← resolve_rwdata_init table setting settingVal
  let rwdata ← applyOverrides overrides rwdata
  let rwdata ← dedupValues rwdata
  .ok (.vDict rwdata)

/-- The two auth-settings entries the resolver reads and rewrites. -/
structure AuthSettings where
  register_fields : PyVal
  profile_fields : PyVal
deriving Repr, DecidableEq

/-- `AuthModel.__define_authform_utils` (lines 72-99): resolve both form
contexts — `register_fields` against `form_registration_rw` and
`profile_fields` against `form_profile_rw` — and store each result back
into the settings under the same key. -/
def define_authform_utils (table : List FieldState) (settings : AuthSettings)
    (form_registration_rw form_profile_rw : List (String × PyVal)) :
    Except String AuthSettings := do
  let reg ← define_authform_one table "register_fields"
    settings.register_fields form_registration_rw
  let prof ← define_authform_one table "profile_fields"
    settings.profile_fields form_profile_rw
  .ok { register_fields := reg, profile_fields := prof }

/-- The setup steps of `AuthModel._define_` (lines 39-51), as trace labels.
`defineFormUtils` labels the base model's form-utils step, which line 49
looks up but never calls. -/
inductive DefStep where
  | defineValidation | defineDefaults | defineUpdates | defineRepresentation
  | defineComputations | defineCallbacks | defineScopes | defineIndexes
  | hideAll | authformRegister | authformProfile | setupStep | defineFormUtils
deriving Repr, DecidableEq

/-- The model state the pipeline acts on: the table's fields with their
visibility flags, the shared auth settings, and whether the base model's
form-utils configuration has been performed. -/
structure ModelState where
  table : List FieldState
  settings : AuthSettings
  formUtilsConfigured : Bool
deriving Repr, DecidableEq

/-- Modelled from the spec: the structural super-steps of the pipeline
(validation, defaults, updates, representation, computations, callbacks,
scopes, indexes) are defined on the base model class, outside this source
fragment; per the spec they perform structural setup on components outside
the modelled state (validation rules, default providers, ...) and leave
field visibility flags and auth settings unchanged. -/
def structuralStep (s : ModelState) : ModelState := s

/-- Modelled from the spec: the base model's `define_form_utils` step is
defined outside this source fragment; it would perform the base
form-utility configuration, recorded abstractly by the
`formUtilsConfigured` flag.  `AuthModel._define_` looks this method up
(line 49) but never calls it. -/
def base_define_form_utils (s : ModelState) : ModelState :=
  { s with formUtilsConfigured := true }

/-- Modelled from the spec: `setup` is the final extension point for
subclass customization; the base implementation, outside this source
fragment, is a no-op. -/
def setupExtension (s : ModelState) : ModelState := s

/-- `AuthModel._define_` (lines 39-51): the eight structural super-steps in
order, then `__hide_all`, then — line 49 being a bare attribute lookup of
`define_form_utils`, not a call — `__define_authform_utils` (register then
profile, the insertion order of `settings_map`), then `setup()`.  Returns
the final state together with the trace of steps actually invoked. -/
def defineModel (regRW profRW : List (String × PyVal)) (s : ModelState) :
    Except String (ModelState × List DefStep) := do
  let s0 := structuralStep (structuralStep (structuralStep (structuralStep
    (structuralStep (structuralStep (structuralStep (structuralStep s)))))))
  let s1 : ModelState := { s0 with table := hide_all s0.table }
  let newSettings ← define_authform_utils s1.table s1.settings regRW profRW
  let s2 : ModelState := { s1 with settings := newSettings }
  let s3 := setupExtension s2
  .ok (s3,
    [.defineValidation, .defineDefaults, .defineUpdates, .defineRepresentation,
     .defineComputations, .defineCallbacks, .defineScopes, .defineIndexes,
     .hideAll, .authformRegister, .authformProfile, .setupStep])

/-- A stored auth-user row, restricted to the fields the row operations
touch plus one untouched field. -/
structure Row where
  email : String
  registration_key : String
deriving Repr, DecidableEq

/-- `row.update_record(registration_key=v)`: assign the field and return
the updated record. -/
def update_registration_key (row : Row) (v : String) : Row :=
  { row with registration_key := v }

/-- `AuthUserBasic._set_disabled` (lines 130-132), exposed as `disable()`. -/
def _set_disabled (row : Row) : Row := update_registration_key row "disabled"

/-- `AuthUserBasic._set_blocked` (lines 134-136), exposed as `block()`. -/
def _set_blocked (row : Row) : Row := update_registration_key row "blocked"

/-- `AuthUserBasic._set_allowed` (lines 138-140), exposed as `allow()`. -/
def _set_allowed (row : Row) : Row := update_registration_key row ""

/-- The `fields` mapping passed to a before-insert callback: field name to
string value, in insertion order. -/
abbrev InsertFields := List (String × String)

/-- Python `fields.get(k)`: the value when present, `None` (here `none`)
otherwise. -/
def fieldsGet (fields : InsertFields) (k : String) : Option String :=
  (fields.find? fun e => e.1 == k).map Prod.snd

/-- Python `fields[k] = v`: replace in place or append. -/
def fieldsSet (fields : InsertFields) (k : String) (v : String) : InsertFields :=
  if fields.any fun e => e.1 == k then
    fields.map fun e => if e.1 == k then (k, v) else e
  else fields ++ [(k, v)]

/-- Python truthiness of `fields.get(k)`: `None` and `""` are falsy. -/
def optStrTruthy : Option String → Bool
  | none => false
  | some s => s != ""

/-- `AuthUserBasic.set_registration_key` (lines 124-128): when the settings
require registration verification and `fields.get('registration_key')` is
falsy, set `fields['registration_key']` to a fresh `uuid()`, modelled by
the `freshToken` parameter; otherwise leave `fields` unchanged. -/
def set_registration_key (requiresVerification : Bool) (freshToken : String)
    (fields : InsertFields) : InsertFields :=
  if requiresVerification && !(optStrTruthy (fieldsGet fields "registration_key")) then
    fieldsSet fields "registration_key" freshToken
  else fields

/-- The effect of one override flag on one of the two visibility lists:
truthy appends the field name, falsy removes its first occurrence (a no-op
when the name is absent). -/
def flagStep (xs : List PyVal) (field : String) (flag : PyVal) : List PyVal :=
  if flag.truthy then xs ++ [.vStr field] else xs.erase (.vStr field)

/-- The readable (when `takeReadable`) or writable flag an override value
decomposes to; the error branch is irrelevant junk, only reached for values
on which `decompose` fails. -/
def flagOf (takeReadable : Bool) (value : PyVal) : PyVal :=
  match decompose value with
  | .ok rw => if takeReadable then rw.1 else rw.2
  | .error _ => .vNone

/-- The pure effect of the override loop on one of the two visibility
lists, applied in declaration order. -/
def foldFlags (takeReadable : Bool) : List (String × PyVal) → List PyVal → List PyVal
  | [], xs => xs
  | e :: rest, xs => foldFlags takeReadable rest (flagStep xs e.1 (flagOf takeReadable e.2))

/-- Every element of the list is a Python string. -/
def allVStr (xs : List PyVal) : Prop := ∀ x ∈ xs, ∃ s, x = .vStr s

/-- A duplicate-free, well-shaped global settings value: empty/absent (with
a duplicate-free table), a nonempty flat list of distinct strings, or a
readable/writable structure of distinct strings. -/
def WellFormedSetting (table : List FieldState) (v : PyVal) : Prop :=
  (v.truthy = false ∧ (table.map FieldState.name).Nodup) ∨
  (∃ xs, v = .vList xs ∧ xs ≠ [] ∧ xs.Nodup ∧ allVStr xs) ∨
  (∃ ws rs, v = .vDict [("writable", .vList ws), ("readable", .vList rs)] ∧
    ws.Nodup ∧ rs.Nodup ∧ allVStr ws ∧ allVStr rs)

/-! ### Supporting lemmas -/

theorem fieldsGet_map_set (k v : String) :
    ∀ (l : InsertFields), (l.any fun e => e.1 == k) = true →
      fieldsGet (l.map fun e => if e.1 == k then (k, v) else e) k = some v := by
  intro l
  induction l with
  | nil => intro h; simp at h
  | cons e rest ih =>
      intro h
      by_cases hk : (e.1 == k) = true
      · simp [fieldsGet, List.find?, hk]
      · simp only [List.any_cons, hk, Bool.false_or] at h
        simpa [fieldsGet, List.find?, hk] using ih h

theorem fieldsGet_append_new (k v : String) :
    ∀ (l : InsertFields), (l.any fun e => e.1 == k) = false →
      fieldsGet (l ++ [(k, v)]) k = some v := by
  intro l
  induction l with
  | nil => intro _; simp [fieldsGet, List.find?]
  | cons e rest ih =>
      intro h
      simp only [List.any_cons, Bool.or_eq_false_iff] at h
      simpa [fieldsGet, List.find?, h.1] using ih h.2

theorem fieldsGet_fieldsSet (k v : String) (l : InsertFields) :
    fieldsGet (fieldsSet l k v) k = some v := by
  unfold fieldsSet
  by_cases h : (l.any fun e => e.1 == k) = true
  · rw [if_pos h]; exact fieldsGet_map_set k v l h
  · rw [if_neg h]
    exact fieldsGet_append_new k v l (Bool.not_eq_true _ ▸ eq_false_of_ne_true h)

/-! ### Claims about the account row operations and the insert hook -/

/-- C5: `disable()`, `block()` and `allow()` unconditionally set
`registration_key` to `"disabled"`, `"blocked"` and `""` respectively, from
any starting state; each returns the updated record and leaves the other
fields alone; each is idempotent; and sequenced operations obey last write
wins (from `""`, `block()` gives `"blocked"`, then `allow()` gives `""`,
and `disable()` followed by `block()` gives `"blocked"`). -/
theorem claim_C5 (row : Row) :
    (_set_disabled row = { row with registration_key := "disabled" }) ∧
    (_set_blocked row = { row with registration_key := "blocked" }) ∧
    (_set_allowed row = { row with registration_key := "" }) ∧
    ((_set_disabled row).registration_key = "disabled" ∧
      (_set_disabled row).email = row.email) ∧
    ((_set_blocked row).registration_key = "blocked" ∧
      (_set_blocked row).email = row.email) ∧
    ((_set_allowed row).registration_key = "" ∧
      (_set_allowed row).email = row.email) ∧
    (_set_disabled (_set_disabled row) = _set_disabled row) ∧
    (_set_blocked (_set_blocked row) = _set_blocked row) ∧
    (_set_allowed (_set_allowed row) = _set_allowed row) ∧
    ((_set_blocked { row with registration_key := "" }).registration_key = "blocked") ∧
    ((_set_allowed (_set_blocked row)).registration_key = "") ∧
    ((_set_blocked (_set_disabled row)).registration_key = "blocked") :=
  ⟨rfl, rfl, rfl, ⟨rfl, rfl⟩, ⟨rfl, rfl⟩, ⟨rfl, rfl⟩, rfl, rfl, rfl, rfl, rfl, rfl⟩

/-- C6: on insertion, `registration_key` is set to the freshly generated
token exactly when the settings require registration verification and no
(nonempty) token was supplied in the insert fields; in every other case the
before-insert hook leaves the supplied fields unchanged. -/
theorem claim_C6 (rv : Bool) (tok : String) (fields : InsertFields) :
    (rv = true → (∀ s, fieldsGet fields "registration_key" = some s → s = "") →
      set_registration_key rv tok fields = fieldsSet fields "registration_key" tok ∧
      fieldsGet (set_registration_key rv tok fields) "registration_key" = some tok) ∧
    (rv = false → set_registration_key rv tok fields = fields) ∧
    (∀ t, fieldsGet fields "registration_key" = some t → t ≠ "" →
      set_registration_key rv tok fields = fields) := by
  refine ⟨?_, ?_, ?_⟩
  · intro hrv hnone
    have hfalsy : optStrTruthy (fieldsGet fields "registration_key") = false := by
      cases hget : fieldsGet fields "registration_key" with
      | none => rfl
      | some s =>
          have : s = "" := hnone s hget
          simp [optStrTruthy, this]
    have hset : set_registration_key rv tok fields =
        fieldsSet fields "registration_key" tok := by
      unfold set_registration_key
      rw [hrv, hfalsy]
      simp
    exact ⟨hset, by rw [hset]; exact fieldsGet_fieldsSet _ _ _⟩
  · intro hrv
    unfold set_registration_key
    rw [hrv]
    simp
  · intro t hget ht
    have htruthy : optStrTruthy (fieldsGet fields "registration_key") = true := by
      simp [optStrTruthy, hget, ht]
    unfold set_registration_key
    rw [htruthy]
    simp

/-- Witness for C6: with verification required and no token supplied the
hook writes the fresh token; with verification off it changes nothing. -/
theorem claim_C6_witness :
    set_registration_key true "tok" [("email", "a")] =
      fieldsSet [("email", "a")] "registration_key" "tok" ∧
    set_registration_key false "tok" [("email", "a")] = [("email", "a")] :=
  ⟨((claim_C6 true "tok" [("email", "a")]).1 rfl fun s h => by
      simp [fieldsGet, List.find?] at h).1,
    (claim_C6 false "tok" [("email", "a")]).2.1 rfl⟩

/-- C9: with verification required, 'no explicit token supplied' is decided
by Python falsiness of `fields.get('registration_key')`: a supplied empty
string is treated as absent and overwritten with the fresh token, while a
nonempty supplied token is preserved unchanged. -/
theorem claim_C9 (freshToken : String) (fields : InsertFields) :
    (fieldsGet fields "registration_key" = some "" →
      set_registration_key true freshToken fields =
        fieldsSet fields "registration_key" freshToken ∧
      fieldsGet (set_registration_key true freshToken fields) "registration_key" =
        some freshToken) ∧
    (∀ t, fieldsGet fields "registration_key" = some t → t ≠ "" →
      set_registration_key true freshToken fields = fields) := by
  constructor
  · intro hget
    have hset : set_registration_key true freshToken fields =
        fieldsSet fields "registration_key" freshToken := by
      unfold set_registration_key
      rw [hget]
      simp [optStrTruthy]
    exact ⟨hset, by rw [hset]; exact fieldsGet_fieldsSet _ _ _⟩
  · intro t hget ht
    unfold set_registration_key
    rw [hget]
    simp [optStrTruthy, ht]

/-- Witness for C9: an explicitly supplied empty string is overwritten, a
nonempty one is preserved. -/
theorem claim_C9_witness :
    set_registration_key true "f" [("registration_key", "")] =
      fieldsSet [("registration_key", "")] "registration_key" "f" ∧
    set_registration_key true "f" [("registration_key", "x")] =
      [("registration_key", "x")] :=
  ⟨((claim_C9 "f" [("registration_key", "")]).1 rfl).1,
    (claim_C9 "f" [("registration_key", "x")]).2 "x" rfl (by decide)⟩

/-! ### Claims about the definition pipeline -/

theorem excBind_ok {ε α β : Type} (a : α) (f : α → Except ε β) :
    (Except.ok a >>= f) = f a := rfl

theorem excBind_error {ε α β : Type} (e : ε) (f : α → Except ε β) :
    ((Except.error e : Except ε α) >>= f) = .error e := rfl

theorem list_contains_iff {α : Type} [DecidableEq α] {l : List α} {a : α} :
    l.contains a = true ↔ a ∈ l := by
  simp only [List.contains_eq_any_beq, List.any_eq_true, beq_iff_eq]
  constructor
  · rintro ⟨x, hx, rfl⟩; exact hx
  · intro h; exact ⟨a, h, rfl⟩

theorem defineModel_ok (regRW profRW : List (String × PyVal)) (s s' : ModelState)
    (tr : List DefStep) (h : defineModel regRW profRW s = .ok (s', tr)) :
    (∃ ns, define_authform_utils (hide_all s.table) s.settings regRW profRW = .ok ns ∧
      s' = { table := hide_all s.table, settings := ns,
             formUtilsConfigured := s.formUtilsConfigured }) ∧
    tr = [.defineValidation, .defineDefaults, .defineUpdates, .defineRepresentation,
          .defineComputations, .defineCallbacks, .defineScopes, .defineIndexes,
          .hideAll, .authformRegister, .authformProfile, .setupStep] := by
  cases hu : define_authform_utils (hide_all s.table) s.settings regRW profRW with
  | error e =>
      simp only [defineModel, structuralStep, setupExtension, hu, excBind_error] at h
      exact Except.noConfusion h
  | ok ns =>
      simp only [defineModel, structuralStep, setupExtension, hu, excBind_ok,
        Except.ok.injEq, Prod.mk.injEq] at h
      exact ⟨⟨ns, rfl, h.1.symm⟩, h.2.symm⟩

/-- C4: `AuthModel._define_` executes its setup steps in exactly the fixed
order validation, defaults, updates, representation, computations,
callbacks, scopes, indexes, field-hiding, the two visibility resolutions
(register then profile), and the extension point `setup()` last; hiding
runs after the eight structural steps and before visibility resolution. -/
theorem claim_C4 (regRW profRW : List (String × PyVal)) (s s' : ModelState)
    (tr : List DefStep) (h : defineModel regRW profRW s = .ok (s', tr)) :
    tr = [.defineValidation, .defineDefaults, .defineUpdates, .defineRepresentation,
          .defineComputations, .defineCallbacks, .defineScopes, .defineIndexes,
          .hideAll, .authformRegister, .authformProfile, .setupStep] ∧
    List.getLast? tr = some .setupStep ∧
    tr.indexOf .hideAll < tr.indexOf .authformRegister ∧
    tr.indexOf .authformRegister < tr.indexOf .authformProfile ∧
    tr.indexOf .defineIndexes < tr.indexOf .hideAll := by
  have htr := (defineModel_ok regRW profRW s s' tr h).2
  subst htr
  exact ⟨rfl, rfl, by decide, by decide, by decide⟩

/-- Witness for C4 on a concrete model state. -/
theorem claim_C4_witness :
    defineModel [] [] ⟨[], ⟨.vNone, .vNone⟩, false⟩ =
      .ok (⟨[], ⟨.vDict [("writable", .vList []), ("readable", .vList [])],
            .vDict [("writable", .vList []), ("readable", .vList [])]⟩, false⟩,
        [.defineValidation, .defineDefaults, .defineUpdates, .defineRepresentation,
         .defineComputations, .defineCallbacks, .defineScopes, .defineIndexes,
         .hideAll, .authformRegister, .authformProfile, .setupStep]) ∧
    [DefStep.defineValidation, .defineDefaults, .defineUpdates, .defineRepresentation,
     .defineComputations, .defineCallbacks, .defineScopes, .defineIndexes,
     .hideAll, .authformRegister, .authformProfile, .setupStep] =
      [.defineValidation, .defineDefaults, .defineUpdates, .defineRepresentation,
       .defineComputations, .defineCallbacks, .defineScopes, .defineIndexes,
       .hideAll, .authformRegister, .authformProfile, .setupStep] :=
  ⟨by decide,
    (claim_C4 [] [] ⟨[], ⟨.vNone, .vNone⟩, false⟩
      ⟨[], ⟨.vDict [("writable", .vList []), ("readable", .vList [])],
            .vDict [("writable", .vList []), ("readable", .vList [])]⟩, false⟩
      [.defineValidation, .defineDefaults, .defineUpdates, .defineRepresentation,
       .defineComputations, .defineCallbacks, .defineScopes, .defineIndexes,
       .hideAll, .authformRegister, .authformProfile, .setupStep]
      (by decide)).1⟩

/-- C10: the base model's form-utils step is looked up but never invoked by
`AuthModel._define_`: it appears nowhere in the executed trace, the state it
would set is left unchanged by the whole pipeline, even though invoking it
would set that state. -/
theorem claim_C10 (regRW profRW : List (String × PyVal)) (s s' : ModelState)
    (tr : List DefStep) (h : defineModel regRW profRW s = .ok (s', tr)) :
    s'.formUtilsConfigured = s.formUtilsConfigured ∧
    DefStep.defineFormUtils ∉ tr ∧
    (base_define_form_utils s).formUtilsConfigured = true := by
  obtain ⟨⟨ns, _, hs'⟩, htr⟩ := defineModel_ok regRW profRW s s' tr h
  subst hs'
  subst htr
  exact ⟨rfl, by decide, rfl⟩

/-- Witness for C10 on a concrete model state. -/
theorem claim_C10_witness :
    (⟨[⟨"email", true, true⟩],
        ⟨.vDict [("writable", .vList [.vStr "email"]), ("readable", .vList [.vStr "email"])],
          .vDict [("writable", .vList []), ("readable", .vList [])]⟩,
        false⟩ : ModelState).formUtilsConfigured = false ∧
    DefStep.defineFormUtils ∉
      ([.defineValidation, .defineDefaults, .defineUpdates, .defineRepresentation,
        .defineComputations, .defineCallbacks, .defineScopes, .defineIndexes,
        .hideAll, .authformRegister, .authformProfile, .setupStep] : List DefStep) :=
  ⟨(claim_C10 [] [] ⟨[⟨"email", true, true⟩], ⟨.vNone, .vNone⟩, false⟩
      ⟨[⟨"email", true, true⟩],
        ⟨.vDict [("writable", .vList [.vStr "email"]), ("readable", .vList [.vStr "email"])],
          .vDict [("writable", .vList []), ("readable", .vList [])]⟩, false⟩
      [.defineValidation, .defineDefaults, .defineUpdates, .defineRepresentation,
       .defineComputations, .defineCallbacks, .defineScopes, .defineIndexes,
       .hideAll, .authformRegister, .authformProfile, .setupStep]
      (by decide)).1,
    (claim_C10 [] [] ⟨[⟨"email", true, true⟩], ⟨.vNone, .vNone⟩, false⟩
      ⟨[⟨"email", true, true⟩],
        ⟨.vDict [("writable", .vList [.vStr "email"]), ("readable", .vList [.vStr "email"])],
          .vDict [("writable", .vList []), ("readable", .vList [])]⟩, false⟩
      [.defineValidation, .defineDefaults, .defineUpdates, .defineRepresentation,
       .defineComputations, .defineCallbacks, .defineScopes, .defineIndexes,
       .hideAll, .authformRegister, .authformProfile, .setupStep]
      (by decide)).2.1⟩

/-- C3: after the hiding step every field outside the always-visible list
has `readable = writable = false` while always-visible fields are left
untouched; no later pipeline step modifies the table, so always-visible
fields that start readable and writable remain so after the full
pipeline. -/
theorem claim_C3 (regRW profRW : List (String × PyVal)) (s s' : ModelState)
    (tr : List DefStep) (h : defineModel regRW profRW s = .ok (s', tr)) :
    s'.table = hide_all s.table ∧
    (∀ g ∈ hide_all s.table, g.name ∉ alwaysvisible →
      g.readable = false ∧ g.writable = false) ∧
    (∀ f ∈ s.table, f.name ∈ alwaysvisible → f ∈ hide_all s.table) ∧
    (∀ f ∈ s.table, f.name ∈ alwaysvisible → f.readable = true → f.writable = true →
      f ∈ s'.table ∧ f.readable = true ∧ f.writable = true) := by
  obtain ⟨⟨ns, _, hs'⟩, _⟩ := defineModel_ok regRW profRW s s' tr h
  have htable : s'.table = hide_all s.table := by rw [hs']
  have hmem : ∀ f ∈ s.table, f.name ∈ alwaysvisible → f ∈ hide_all s.table := by
    intro f hf hname
    unfold hide_all
    have : (if alwaysvisible.contains f.name then f
        else { f with writable := false, readable := false }) = f := by
      rw [if_pos (list_contains_iff.mpr hname)]
    exact this ▸ List.mem_map_of_mem _ hf
  refine ⟨htable, ?_, hmem, ?_⟩
  · intro g hg hname
    unfold hide_all at hg
    obtain ⟨f, _, hfg⟩ := List.mem_map.mp hg
    by_cases hvis : alwaysvisible.contains f.name
    · rw [if_pos hvis] at hfg
      subst hfg
      exact absurd (list_contains_iff.mp hvis) hname
    · rw [if_neg hvis] at hfg
      subst hfg
      exact ⟨rfl, rfl⟩
  · intro f hf hname hr hw
    exact ⟨htable ▸ hmem f hf hname, hr, hw⟩

/-- Witness for C3 on a concrete model state. -/
theorem claim_C3_witness :
    (⟨[⟨"email", true, true⟩, ⟨"bio", false, false⟩],
        ⟨.vDict [("writable", .vList [.vStr "email"]), ("readable", .vList [.vStr "email"])],
          .vDict [("writable", .vList []), ("readable", .vList [])]⟩,
        false⟩ : ModelState).table =
      hide_all [⟨"email", true, true⟩, ⟨"bio", true, true⟩] ∧
    (⟨"email", true, true⟩ : FieldState) ∈
      (⟨[⟨"email", true, true⟩, ⟨"bio", false, false⟩],
        ⟨.vDict [("writable", .vList [.vStr "email"]), ("readable", .vList [.vStr "email"])],
          .vDict [("writable", .vList []), ("readable", .vList [])]⟩,
        false⟩ : ModelState).table :=
  ⟨(claim_C3 [] [] ⟨[⟨"email", true, true⟩, ⟨"bio", true, true⟩], ⟨.vNone, .vNone⟩, false⟩
      ⟨[⟨"email", true, true⟩, ⟨"bio", false, false⟩],
        ⟨.vDict [("writable", .vList [.vStr "email"]), ("readable", .vList [.vStr "email"])],
          .vDict [("writable", .vList []), ("readable", .vList [])]⟩, false⟩
      [.defineValidation, .defineDefaults, .defineUpdates, .defineRepresentation,
       .defineComputations, .defineCallbacks, .defineScopes, .defineIndexes,
       .hideAll, .authformRegister, .authformProfile, .setupStep]
      (by decide)).1,
    ((claim_C3 [] [] ⟨[⟨"email", true, true⟩, ⟨"bio", true, true⟩], ⟨.vNone, .vNone⟩, false⟩
      ⟨[⟨"email", true, true⟩, ⟨"bio", false, false⟩],
        ⟨.vDict [("writable", .vList [.vStr "email"]), ("readable", .vList [.vStr "email"])],
          .vDict [("writable", .vList []), ("readable", .vList [])]⟩, false⟩
      [.defineValidation, .defineDefaults, .defineUpdates, .defineRepresentation,
       .defineComputations, .defineCallbacks, .defineScopes, .defineIndexes,
       .hideAll, .authformRegister, .authformProfile, .setupStep]
      (by decide)).2.2.2 ⟨"email", true, true⟩ (by decide) (by decide) rfl rfl).1⟩

/-! ### Claims about the visibility resolver -/

theorem base_visibility_mem (table : List FieldState) (n : String) :
    (n ∈ base_visibility table "profile_fields" ↔
      (∃ f ∈ table, f.name = n ∧ f.writable = true) ∧ n ≠ "password" ∧ n ≠ "email") ∧
    (n ∈ base_visibility table "register_fields" ↔
      ∃ f ∈ table, f.name = n ∧ f.writable = true) := by
  constructor
  · simp only [base_visibility, List.mem_map, List.mem_filter, Bool.and_eq_true,
      beq_self_eq_true, if_true, Bool.not_eq_true']
    constructor
    · rintro ⟨f, ⟨hf, hw, hex⟩, rfl⟩
      have hnotmem : f.name ∉ ["password", "email"] := fun hmem => by
        rw [list_contains_iff.mpr hmem] at hex
        exact Bool.noConfusion hex
      simp only [List.mem_cons, List.not_mem_nil, or_false, not_or] at hnotmem
      exact ⟨⟨f, hf, rfl, hw⟩, hnotmem.1, hnotmem.2⟩
    · rintro ⟨⟨f, hf, rfl, hw⟩, h1, h2⟩
      refine ⟨f, ⟨hf, hw, ?_⟩, rfl⟩
      rw [Bool.eq_false_iff]
      intro hc
      have hmem := list_contains_iff.mp hc
      simp only [List.mem_cons, List.not_mem_nil, or_false] at hmem
      rcases hmem with h | h
      · exact h1 h
      · exact h2 h
  · simp only [base_visibility, List.mem_map, List.mem_filter, Bool.and_eq_true]
    constructor
    · rintro ⟨f, ⟨hf, hw, _⟩, rfl⟩
      exact ⟨f, hf, rfl, hw⟩
    · rintro ⟨f, hf, rfl, hw⟩
      exact ⟨f, ⟨hf, hw, by simp [List.contains_eq_any_beq]⟩, rfl⟩

/-- C1: with an empty/absent global settings value the resolver starts from
the base-visibility list — the names of the currently writable fields,
excluding `password` and `email` for the profile context — as both the
readable and the writable list; a flat (non-dict) collection is used as
both lists; a `{readable, writable}` dict is used verbatim; and
`__define_authform_utils` stores each context's resolver output back into
the settings under the same context key. -/
theorem claim_C1 (table : List FieldState) (settings : AuthSettings)
    (rov pov : List (String × PyVal)) :
    (∀ c (v : PyVal), v.truthy = false →
      resolve_rwdata_init table c v =
        .ok [("writable", .vList ((base_visibility table c).map PyVal.vStr)),
             ("readable", .vList ((base_visibility table c).map PyVal.vStr))]) ∧
    (∀ n, (n ∈ base_visibility table "profile_fields" ↔
        (∃ f ∈ table, f.name = n ∧ f.writable = true) ∧ n ≠ "password" ∧ n ≠ "email") ∧
      (n ∈ base_visibility table "register_fields" ↔
        ∃ f ∈ table, f.name = n ∧ f.writable = true)) ∧
    (∀ c (v : PyVal) xs, v.truthy = true → (∀ es, v ≠ .vDict es) →
      v.iterate = .ok xs →
      resolve_rwdata_init table c v =
        .ok [("writable", .vList xs), ("readable", .vList xs)]) ∧
    (∀ c es, (PyVal.vDict es).truthy = true →
      resolve_rwdata_init table c (.vDict es) = .ok es) ∧
    (∀ s', define_authform_utils table settings rov pov = .ok s' →
      define_authform_one table "register_fields" settings.register_fields rov =
        .ok s'.register_fields ∧
      define_authform_one table "profile_fields" settings.profile_fields pov =
        .ok s'.profile_fields) := by
  refine ⟨?_, fun n => base_visibility_mem table n, ?_, ?_, ?_⟩
  · intro c v hv
    simp [resolve_rwdata_init, hv, PyVal.iterate, excBind_ok]
  · intro c v xs htr hnd hit
    cases v with
    | vDict es => exact absurd rfl (hnd es)
    | vNone => exact absurd htr (by simp [PyVal.truthy])
    | vBool b =>
        exact absurd hit (by simp [PyVal.iterate])
    | vInt nn =>
        exact absurd hit (by simp [PyVal.iterate])
    | vStr st =>
        simp only [PyVal.iterate, Except.ok.injEq] at hit
        subst hit
        simp [resolve_rwdata_init, htr, PyVal.iterate, excBind_ok]
    | vList l =>
        simp only [PyVal.iterate, Except.ok.injEq] at hit
        subst hit
        simp [resolve_rwdata_init, htr, PyVal.iterate, excBind_ok]
    | vTuple l =>
        simp only [PyVal.iterate, Except.ok.injEq] at hit
        subst hit
        simp [resolve_rwdata_init, htr, PyVal.iterate, excBind_ok]
  · intro c es htr
    simp [resolve_rwdata_init, htr]
  · intro s' h
    cases h1 : define_authform_one table "register_fields" settings.register_fields rov with
    | error e =>
        simp only [define_authform_utils, h1, excBind_error] at h
        exact Except.noConfusion h
    | ok r =>
        cases h2 : define_authform_one table "profile_fields" settings.profile_fields pov with
        | error e =>
            simp only [define_authform_utils, h1, h2, excBind_ok, excBind_error] at h
            exact Except.noConfusion h
        | ok p =>
            simp only [define_authform_utils, h1, h2, excBind_ok, Except.ok.injEq] at h
            subst h
            exact ⟨rfl, rfl⟩

/-- Witness for C1 on a concrete table, settings and overrides. -/
theorem claim_C1_witness :
    resolve_rwdata_init [⟨"password", true, true⟩, ⟨"bio", true, true⟩]
        "profile_fields" .vNone =
      .ok [("writable", .vList ((base_visibility
              [⟨"password", true, true⟩, ⟨"bio", true, true⟩] "profile_fields").map
                PyVal.vStr)),
           ("readable", .vList ((base_visibility
              [⟨"password", true, true⟩, ⟨"bio", true, true⟩] "profile_fields").map
                PyVal.vStr))] ∧
    resolve_rwdata_init [⟨"password", true, true⟩, ⟨"bio", true, true⟩]
        "register_fields" (.vList [.vStr "bio"]) =
      .ok [("writable", .vList [.vStr "bio"]), ("readable", .vList [.vStr "bio"])] ∧
    resolve_rwdata_init [⟨"password", true, true⟩, ⟨"bio", true, true⟩]
        "register_fields" (.vDict [("readable", .vList [])]) =
      .ok [("readable", .vList [])] ∧
    define_authform_one [⟨"password", true, true⟩, ⟨"bio", true, true⟩]
        "register_fields" .vNone [] =
      .ok (⟨.vDict [("writable", .vList [.vStr "password", .vStr "bio"]),
                    ("readable", .vList [.vStr "password", .vStr "bio"])],
            .vDict [("writable", .vList [.vStr "bio"]),
                    ("readable", .vList [.vStr "bio"])]⟩ : AuthSettings).register_fields := by
  refine ⟨(claim_C1 [⟨"password", true, true⟩, ⟨"bio", true, true⟩]
      ⟨.vNone, .vNone⟩ [] []).1 "profile_fields" .vNone rfl,
    (claim_C1 [⟨"password", true, true⟩, ⟨"bio", true, true⟩]
      ⟨.vNone, .vNone⟩ [] []).2.2.1 "register_fields" (.vList [.vStr "bio"])
      [.vStr "bio"] rfl (fun es h => PyVal.noConfusion h) rfl,
    (claim_C1 [⟨"password", true, true⟩, ⟨"bio", true, true⟩]
      ⟨.vNone, .vNone⟩ [] []).2.2.2.1 "register_fields" [("readable", .vList [])] rfl,
    ((claim_C1 [⟨"password", true, true⟩, ⟨"bio", true, true⟩]
      ⟨.vNone, .vNone⟩ [] []).2.2.2.2
      ⟨.vDict [("writable", .vList [.vStr "password", .vStr "bio"]),
               ("readable", .vList [.vStr "password", .vStr "bio"])],
       .vDict [("writable", .vList [.vStr "bio"]),
               ("readable", .vList [.vStr "bio"])]⟩ (by decide)).1⟩

/-! ### The override loop on well-formed readable/writable dicts -/

theorem applyFlag_readable (ws rs : List PyVal) (field : String) (flag : PyVal) :
    applyFlag [("writable", .vList ws), ("readable", .vList rs)] "readable" field flag =
      .ok [("writable", .vList ws), ("readable", .vList (flagStep rs field flag))] := by
  unfold applyFlag flagStep
  by_cases h : flag.truthy
  · simp [h, dictGet, dictSet, pyAppend, List.find?, List.any, excBind_ok]
  · by_cases hc : (PyVal.vStr field) ∈ rs
    · have hc' : rs.contains (PyVal.vStr field) = true := list_contains_iff.mpr hc
      simp [h, hc', hc, dictGet, dictSet, pyContains, pyRemove, List.find?, List.any,
        excBind_ok]
    · have hc' : rs.contains (PyVal.vStr field) = false :=
        Bool.eq_false_iff.mpr fun hcc => hc (list_contains_iff.mp hcc)
      simp [h, hc', hc, dictGet, dictSet, pyContains, pyRemove, List.find?, List.any,
        excBind_ok, List.erase_of_not_mem hc]

theorem applyFlag_writable (ws rs : List PyVal) (field : String) (flag : PyVal) :
    applyFlag [("writable", .vList ws), ("readable", .vList rs)] "writable" field flag =
      .ok [("writable", .vList (flagStep ws field flag)), ("readable", .vList rs)] := by
  unfold applyFlag flagStep
  by_cases h : flag.truthy
  · simp [h, dictGet, dictSet, pyAppend, List.find?, List.any, excBind_ok]
  · by_cases hc : (PyVal.vStr field) ∈ ws
    · have hc' : ws.contains (PyVal.vStr field) = true := list_contains_iff.mpr hc
      simp [h, hc', hc, dictGet, dictSet, pyContains, pyRemove, List.find?, List.any,
        excBind_ok]
    · have hc' : ws.contains (PyVal.vStr field) = false :=
        Bool.eq_false_iff.mpr fun hcc => hc (list_contains_iff.mp hcc)
      simp [h, hc', hc, dictGet, dictSet, pyContains, pyRemove, List.find?, List.any,
        excBind_ok, List.erase_of_not_mem hc]

theorem applyOverride_wf (ws rs : List PyVal) (field : String) (value r w : PyVal)
    (hd : decompose value = .ok (r, w)) :
    applyOverride [("writable", .vList ws), ("readable", .vList rs)] field value =
      .ok [("writable", .vList (flagStep ws field w)),
           ("readable", .vList (flagStep rs field r))] := by
  unfold applyOverride
  rw [hd, excBind_ok]
  rw [applyFlag_readable, excBind_ok, applyFlag_writable]

theorem flagOf_true_eq (value r w : PyVal) (hd : decompose value = .ok (r, w)) :
    flagOf true value = r := by simp [flagOf, hd]

theorem flagOf_false_eq (value r w : PyVal) (hd : decompose value = .ok (r, w)) :
    flagOf false value = w := by simp [flagOf, hd]

theorem applyOverrides_wf : ∀ (ov : List (String × PyVal)) (ws rs : List PyVal),
    (∀ e ∈ ov, ∃ r w, decompose e.2 = .ok (r, w)) →
    applyOverrides ov [("writable", .vList ws), ("readable", .vList rs)] =
      .ok [("writable", .vList (foldFlags false ov ws)),
           ("readable", .vList (foldFlags true ov rs))]
  | [], ws, rs, _ => rfl
  | e :: rest, ws, rs, hv => by
      obtain ⟨r, w, hd⟩ := hv e (List.mem_cons_self e rest)
      unfold applyOverrides
      rw [applyOverride_wf ws rs e.1 e.2 r w hd, excBind_ok]
      simp only [foldFlags, flagOf_true_eq e.2 r w hd, flagOf_false_eq e.2 r w hd]
      exact applyOverrides_wf rest _ _ fun e' he' => hv e' (List.mem_cons_of_mem e he')

theorem hashableList_of_allVStr : ∀ (xs : List PyVal), allVStr xs →
    PyVal.hashableList xs = true
  | [], _ => rfl
  | x :: xs, h => by
      obtain ⟨s, hs⟩ := h x (List.mem_cons_self x xs)
      subst hs
      simp only [PyVal.hashableList, PyVal.hashable, Bool.true_and]
      exact hashableList_of_allVStr xs fun y hy => h y (List.mem_cons_of_mem _ hy)

theorem dedupValues_wf (ws rs : List PyVal) (hws : allVStr ws) (hrs : allVStr rs) :
    dedupValues [("writable", .vList ws), ("readable", .vList rs)] =
      .ok [("writable", .vList ws.dedup), ("readable", .vList rs.dedup)] := by
  simp [dedupValues, pySetList, PyVal.iterate, hashableList_of_allVStr ws hws,
    hashableList_of_allVStr rs hrs, excBind_ok]

theorem allVStr_flagStep (xs : List PyVal) (f : String) (flag : PyVal)
    (h : allVStr xs) : allVStr (flagStep xs f flag) := by
  unfold flagStep
  by_cases ht : flag.truthy
  · simp only [ht, if_true]
    intro x hx
    rcases List.mem_append.mp hx with hx | hx
    · exact h x hx
    · exact ⟨f, List.mem_singleton.mp hx⟩
  · simp only [ht, Bool.false_eq_true, if_false]
    intro x hx
    exact h x (List.mem_of_mem_erase hx)

theorem allVStr_foldFlags (b : Bool) : ∀ (ov : List (String × PyVal)) (xs : List PyVal),
    allVStr xs → allVStr (foldFlags b ov xs)
  | [], _, h => h
  | e :: rest, xs, h =>
      allVStr_foldFlags b rest _ (allVStr_flagStep xs e.1 (flagOf b e.2) h)

theorem define_authform_one_wf (table : List FieldState) (setting : String) (v : PyVal)
    (ov : List (String × PyVal)) (ws0 rs0 : List PyVal)
    (hinit : resolve_rwdata_init table setting v =
      .ok [("writable", .vList ws0), ("readable", .vList rs0)])
    (hws : allVStr ws0) (hrs : allVStr rs0)
    (hvals : ∀ e ∈ ov, ∃ r w, decompose e.2 = .ok (r, w)) :
    define_authform_one table setting v ov =
      .ok (.vDict [("writable", .vList (foldFlags false ov ws0).dedup),
                   ("readable", .vList (foldFlags true ov rs0).dedup)]) := by
  unfold define_authform_one
  rw [hinit, excBind_ok, applyOverrides_wf ov ws0 rs0 hvals, excBind_ok,
    dedupValues_wf _ _ (allVStr_foldFlags false ov ws0 hws)
      (allVStr_foldFlags true ov rs0 hrs), excBind_ok]

theorem base_visibility_nodup (table : List FieldState) (setting : String)
    (h : (table.map FieldState.name).Nodup) : (base_visibility table setting).Nodup := by
  unfold base_visibility
  exact h.sublist ((List.filter_sublist table).map FieldState.name)

theorem vStr_injective : Function.Injective PyVal.vStr := by
  intro a b h
  injection h

theorem resolve_init_wf (table : List FieldState) (setting : String) (v : PyVal)
    (hv : WellFormedSetting table v) :
    ∃ ws rs, resolve_rwdata_init table setting v =
        .ok [("writable", .vList ws), ("readable", .vList rs)] ∧
      ws.Nodup ∧ rs.Nodup ∧ allVStr ws ∧ allVStr rs := by
  rcases hv with ⟨hf, hnames⟩ | ⟨xs, rfl, hne, hnd, hstr⟩ |
    ⟨ws, rs, rfl, hwnd, hrnd, hwstr, hrstr⟩
  · refine ⟨(base_visibility table setting).map PyVal.vStr,
      (base_visibility table setting).map PyVal.vStr, ?_, ?_, ?_, ?_, ?_⟩
    · simp [resolve_rwdata_init, hf, PyVal.iterate, excBind_ok]
    · exact (base_visibility_nodup table setting hnames).map vStr_injective
    · exact (base_visibility_nodup table setting hnames).map vStr_injective
    · intro x hx
      obtain ⟨s, _, hs⟩ := List.mem_map.mp hx
      exact ⟨s, hs.symm⟩
    · intro x hx
      obtain ⟨s, _, hs⟩ := List.mem_map.mp hx
      exact ⟨s, hs.symm⟩
  · have htr : (PyVal.vList xs).truthy = true := by
      simp [PyVal.truthy, List.isEmpty_iff, hne]
    exact ⟨xs, xs, by simp [resolve_rwdata_init, htr, PyVal.iterate, excBind_ok],
      hnd, hnd, hstr, hstr⟩
  · have htr : (PyVal.vDict [("writable", .vList ws), ("readable", .vList rs)]).truthy
        = true := by simp [PyVal.truthy]
    exact ⟨ws, rs, by simp [resolve_rwdata_init, htr], hwnd, hrnd, hwstr, hrstr⟩

theorem mem_flagStep_of_ne (xs : List PyVal) (f : String) (flag : PyVal) (x : PyVal)
    (hx : x ≠ .vStr f) : x ∈ flagStep xs f flag ↔ x ∈ xs := by
  unfold flagStep
  by_cases h : flag.truthy
  · simp [h, hx]
  · simp only [h, Bool.false_eq_true, if_false]
    exact List.mem_erase_of_ne hx

theorem count_flagStep_of_ne (xs : List PyVal) (f : String) (flag : PyVal) (x : PyVal)
    (hx : x ≠ .vStr f) : (flagStep xs f flag).count x ≤ xs.count x := by
  unfold flagStep
  by_cases h : flag.truthy
  · have : List.count x [PyVal.vStr f] = 0 := by
      rw [List.count_eq_zero]
      simp [hx]
    simp [h, List.count_append, this]
  · simp only [h, Bool.false_eq_true, if_false]
    exact List.Sublist.count_le (List.erase_sublist _ _) x

theorem not_mem_erase_self_of_count_le_one (xs : List PyVal) (x : PyVal)
    (h : xs.count x ≤ 1) : x ∉ xs.erase x := by
  intro hmem
  have hpos := List.count_pos_iff.mpr hmem
  rw [List.count_erase_self] at hpos
  omega

theorem mem_foldFlags (b : Bool) :
    ∀ (ov : List (String × PyVal)) (xs : List PyVal) (x : PyVal),
      (ov.map Prod.fst).Nodup →
      (∀ e ∈ ov, xs.count (.vStr e.1) ≤ 1) →
      (x ∈ foldFlags b ov xs ↔
        (∃ e ∈ ov, x = .vStr e.1 ∧ (flagOf b e.2).truthy = true) ∨
        (x ∈ xs ∧ ¬∃ e ∈ ov, x = .vStr e.1 ∧ (flagOf b e.2).truthy = false)) := by
  intro ov
  induction ov with
  | nil =>
      intro xs x _ _
      simp [foldFlags]
  | cons e rest ih =>
      intro xs x hkeys hcount
      have hkey_head : e.1 ∉ rest.map Prod.fst := (List.nodup_cons.mp hkeys).1
      have hkeys' : (rest.map Prod.fst).Nodup := (List.nodup_cons.mp hkeys).2
      have hcount' : ∀ e' ∈ rest, (flagStep xs e.1 (flagOf b e.2)).count (.vStr e'.1) ≤ 1 := by
        intro e' he'
        have hne : (PyVal.vStr e'.1) ≠ .vStr e.1 := by
          intro hcontra
          injection hcontra with hcontra
          exact hkey_head (hcontra ▸ List.mem_map_of_mem Prod.fst he')
        exact le_trans (count_flagStep_of_ne xs e.1 (flagOf b e.2) _ hne)
          (hcount e' (List.mem_cons_of_mem e he'))
      have hmain := ih (flagStep xs e.1 (flagOf b e.2)) x hkeys' hcount'
      rw [foldFlags, hmain]
      by_cases hx : x = PyVal.vStr e.1
      · subst hx
        have hnorest_t : ¬∃ e' ∈ rest, PyVal.vStr e.1 = .vStr e'.1 ∧
            (flagOf b e'.2).truthy = true := by
          rintro ⟨e', he', heq, _⟩
          injection heq with heq
          exact hkey_head (heq ▸ List.mem_map_of_mem Prod.fst he')
        have hnorest_f : ¬∃ e' ∈ rest, PyVal.vStr e.1 = .vStr e'.1 ∧
            (flagOf b e'.2).truthy = false := by
          rintro ⟨e', he', heq, _⟩
          injection heq with heq
          exact hkey_head (heq ▸ List.mem_map_of_mem Prod.fst he')
        by_cases hfl : (flagOf b e.2).truthy = true
        · constructor
          · intro _
            exact Or.inl ⟨e, List.mem_cons_self e rest, rfl, hfl⟩
          · intro _
            refine Or.inr ⟨?_, hnorest_f⟩
            unfold flagStep
            rw [if_pos hfl]
            simp
        · have hfl' : (flagOf b e.2).truthy = false := Bool.eq_false_iff.mpr hfl
          have hnotin : PyVal.vStr e.1 ∉ flagStep xs e.1 (flagOf b e.2) := by
            unfold flagStep
            rw [if_neg hfl]
            exact not_mem_erase_self_of_count_le_one xs _
              (hcount e (List.mem_cons_self e rest))
          constructor
          · rintro (h | ⟨hmem, _⟩)
            · exact absurd h hnorest_t
            · exact absurd hmem hnotin
          · rintro (⟨e', he', heq, htr⟩ | ⟨_, hno⟩)
            · rcases List.mem_cons.mp he' with rfl | he'
              · rw [htr] at hfl'
                exact Bool.noConfusion hfl'
              · exact absurd ⟨e', he', heq, htr⟩ hnorest_t
            · exact absurd ⟨e, List.mem_cons_self e rest, rfl, hfl'⟩ hno
      · have hmem_iff : x ∈ flagStep xs e.1 (flagOf b e.2) ↔ x ∈ xs :=
          mem_flagStep_of_ne xs e.1 (flagOf b e.2) x hx
        rw [hmem_iff]
        constructor
        · rintro (⟨e', he', heq, htr⟩ | ⟨hmem, hno⟩)
          · exact Or.inl ⟨e', List.mem_cons_of_mem e he', heq, htr⟩
          · refine Or.inr ⟨hmem, ?_⟩
            rintro ⟨e', he', heq, htr⟩
            rcases List.mem_cons.mp he' with rfl | he'
            · exact hx heq
            · exact hno ⟨e', he', heq, htr⟩
        · rintro (⟨e', he', heq, htr⟩ | ⟨hmem, hno⟩)
          · rcases List.mem_cons.mp he' with rfl | he'
            · exact absurd heq hx
            · exact Or.inl ⟨e', he', heq, htr⟩
          · refine Or.inr ⟨hmem, ?_⟩
            rintro ⟨e', he', heq, htr⟩
            exact hno ⟨e', List.mem_cons_of_mem e he', heq, htr⟩

theorem or_and_absorb {T M F : Prop} :
    (T ∨ ((T ∨ (M ∧ ¬F)) ∧ ¬F)) ↔ (T ∨ (M ∧ ¬F)) := by
  constructor
  · rintro (ht | ⟨ht | ⟨hm, hf⟩, hf'⟩)
    · exact Or.inl ht
    · exact Or.inl ht
    · exact Or.inr ⟨hm, hf⟩
  · rintro (ht | ⟨hm, hf⟩)
    · exact Or.inl ht
    · exact Or.inr ⟨Or.inr ⟨hm, hf⟩, hf⟩

theorem pySetList_ok (v w : PyVal) (h : pySetList v = .ok w) :
    ∃ xs : List PyVal, w = .vList xs.dedup := by
  unfold pySetList at h
  cases hit : v.iterate with
  | error e => rw [hit, excBind_error] at h; exact Except.noConfusion h
  | ok xs =>
      rw [hit, excBind_ok] at h
      by_cases hh : PyVal.hashableList xs = true
      · rw [if_pos hh] at h
        injection h with h
        exact ⟨xs, h.symm⟩
      · rw [if_neg hh] at h
        exact Except.noConfusion h

theorem allVStr_dedup (xs : List PyVal) (h : allVStr xs) : allVStr xs.dedup :=
  fun x hx => h x (List.mem_dedup.mp hx)

theorem decompose_len (xs : List PyVal) (h : xs.length ≠ 2) :
    decompose (.vTuple xs) = .error "ValueError: unpacking" := by
  match xs with
  | [] => rfl
  | [a] => rfl
  | [a, b] => exact absurd rfl h
  | a :: b :: c :: rest => rfl

/-- C2 fails as stated: starting from the flat settings collection
`['a', 'a']`, the falsy override `('a', False)` removes only the first
occurrence, so `'a'` survives into the final (deduplicated) readable and
writable sets even though the override asked for its removal. -/
theorem claim_C2_counterexample :
    define_authform_one [] "register_fields" (.vList [.vStr "a", .vStr "a"])
        [("a", .vBool false)] =
      .ok (.vDict [("writable", .vList [.vStr "a"]), ("readable", .vList [.vStr "a"])]) ∧
    (PyVal.vBool false).truthy = false ∧
    PyVal.vStr "a" ∈ [PyVal.vStr "a"] :=
  ⟨by decide, rfl, by decide⟩

/-- C2 (amended): a 2-tuple override value is decomposed into
`(readable, writable)` and a single non-sequence value is duplicated into
both positions; a truthy readable appends the field to the readable list
while a falsy readable removes its first occurrence — so a field listed
more than once in the incoming collection may survive removal — with
removal of an absent field a no-op rather than an error; symmetrically for
writable; and after all overrides both stored lists are deduplicated. -/
theorem claim_C2_amended (ws rs : List PyVal) (field : String) (value r w : PyVal)
    (hd : decompose value = .ok (r, w)) :
    applyOverride [("writable", .vList ws), ("readable", .vList rs)] field value =
      .ok [("writable",
            .vList (if w.truthy then ws ++ [.vStr field] else ws.erase (.vStr field))),
           ("readable",
            .vList (if r.truthy then rs ++ [.vStr field] else rs.erase (.vStr field)))] ∧
    (PyVal.vStr field ∉ rs → rs.erase (.vStr field) = rs) ∧
    (∀ v' : PyVal, (∀ xs, v' ≠ .vTuple xs) → (∀ xs, v' ≠ .vList xs) →
      decompose v' = .ok (v', v')) ∧
    (∀ d out : PyDict, dedupValues d = .ok out →
      ∀ e ∈ out, ∃ xs : List PyVal, e.2 = .vList xs ∧ xs.Nodup) := by
  refine ⟨?_, fun h => List.erase_of_not_mem h, ?_, ?_⟩
  · simpa [flagStep] using applyOverride_wf ws rs field value r w hd
  · intro v' ht hl
    cases v' with
    | vTuple xs => exact absurd rfl (ht xs)
    | vList xs => exact absurd rfl (hl xs)
    | vNone => rfl
    | vBool b => rfl
    | vInt n => rfl
    | vStr s => rfl
    | vDict es => rfl
  · intro d
    induction d with
    | nil =>
        intro out h
        have hout : ([] : PyDict) = out := by simpa [dedupValues] using h
        subst hout
        intro e he
        exact absurd he (List.not_mem_nil e)
    | cons ent rest ih =>
        intro out h
        unfold dedupValues at h
        cases hps : pySetList ent.2 with
        | error er =>
            rw [hps, excBind_error] at h
            exact Except.noConfusion h
        | ok v =>
            rw [hps, excBind_ok] at h
            cases htl : dedupValues rest with
            | error er =>
                rw [htl, excBind_error] at h
                exact Except.noConfusion h
            | ok tail =>
                rw [htl, excBind_ok] at h
                injection h with h
                subst h
                intro e he
                rcases List.mem_cons.mp he with rfl | he
                · obtain ⟨xs, hxs⟩ := pySetList_ok ent.2 v hps
                  exact ⟨xs.dedup, by simpa using hxs, List.nodup_dedup xs⟩
                · exact ih tail htl e he

/-- Witness for the amended C2 at a concrete override. -/
theorem claim_C2_amended_witness :
    applyOverride [("writable", .vList [.vStr "a"]), ("readable", .vList [.vStr "a"])]
        "b" (.vBool true) =
      .ok [("writable", .vList (if (PyVal.vBool true).truthy then
              [PyVal.vStr "a"] ++ [.vStr "b"] else [PyVal.vStr "a"].erase (.vStr "b"))),
           ("readable", .vList (if (PyVal.vBool true).truthy then
              [PyVal.vStr "a"] ++ [.vStr "b"] else [PyVal.vStr "a"].erase (.vStr "b")))] :=
  (claim_C2_amended [.vStr "a"] [.vStr "a"] "b" (.vBool true) (.vBool true) (.vBool true)
    rfl).1

/-- C7 fails as stated: the override value `7` is neither a boolean nor a
2-tuple — an unsupported shape — yet the resolver silently coerces it by
truthiness, succeeds, and adds the field to both sets. -/
theorem claim_C7_counterexample :
    define_authform_one [] "register_fields" .vNone [("bio", .vInt 7)] =
      .ok (.vDict [("writable", .vList [.vStr "bio"]),
                   ("readable", .vList [.vStr "bio"])]) := by
  decide

/-- C7 (amended): a truthy non-iterable global settings value (such as a
nonzero integer) raises a fatal `TypeError` during definition, and a
sequence-shaped override value whose length is not two raises a fatal
`ValueError`; however a non-sequence override value of any other type is
silently interpreted by its truthiness rather than rejected. -/
theorem claim_C7_amended (table : List FieldState) (ov ov' : List (String × PyVal))
    (n : Int) (f : String) (xs : List PyVal)
    (hn : n ≠ 0) (hlen : xs.length ≠ 2) :
    define_authform_one table "register_fields" (.vInt n) ov =
      .error "TypeError: object is not iterable" ∧
    define_authform_one table "register_fields" .vNone ((f, .vTuple xs) :: ov') =
      .error "ValueError: unpacking" := by
  constructor
  · have htr : (PyVal.vInt n).truthy = true := by simp [PyVal.truthy, hn]
    simp [define_authform_one, resolve_rwdata_init, htr, PyVal.iterate, excBind_error]
  · have hinit : resolve_rwdata_init table "register_fields" .vNone =
        .ok [("writable",
              .vList ((base_visibility table "register_fields").map PyVal.vStr)),
             ("readable",
              .vList ((base_visibility table "register_fields").map PyVal.vStr))] := by
      simp [resolve_rwdata_init, PyVal.truthy, PyVal.iterate, excBind_ok]
    unfold define_authform_one
    rw [hinit, excBind_ok]
    unfold applyOverrides applyOverride
    rw [decompose_len xs hlen, excBind_error, excBind_error, excBind_error]

/-- Witness for the amended C7 at concrete malformed inputs. -/
theorem claim_C7_amended_witness :
    define_authform_one [] "register_fields" (.vInt 5) [] =
      .error "TypeError: object is not iterable" ∧
    define_authform_one [] "register_fields" .vNone [("x", .vTuple [])] =
      .error "ValueError: unpacking" :=
  claim_C7_amended [] [] [] 5 "x" [] (by decide) (by decide)

/-- C8 fails as stated: from the duplicated flat collection `['a', 'a']`
with the falsy override `('a', False)`, the first resolution yields sets
containing `'a'`, while re-resolving the already-normalized entry with the
same inputs removes `'a'` — the two runs yield different sets. -/
theorem claim_C8_counterexample :
    define_authform_one [] "register_fields" (.vList [.vStr "a", .vStr "a"])
        [("a", .vBool false)] =
      .ok (.vDict [("writable", .vList [.vStr "a"]), ("readable", .vList [.vStr "a"])]) ∧
    define_authform_one [] "register_fields"
        (.vDict [("writable", .vList [.vStr "a"]), ("readable", .vList [.vStr "a"])])
        [("a", .vBool false)] =
      .ok (.vDict [("writable", .vList []), ("readable", .vList [])]) ∧
    PyVal.vStr "a" ∈ [PyVal.vStr "a"] ∧
    PyVal.vStr "a" ∉ ([] : List PyVal) :=
  ⟨by decide, by decide, by decide, by decide⟩

set_option maxHeartbeats 1000000 in
/-- C8 (amended): visibility resolution is idempotent — re-resolving a
context on the entry normalized by a first run, with the same field list
and overrides, yields the same readable and writable sets — provided the
incoming collections are duplicate-free (absent/flat/structured settings
of distinct strings), the override keys are distinct, and every override
value decomposes. -/
theorem claim_C8_amended (table : List FieldState) (setting : String) (v : PyVal)
    (ov : List (String × PyVal)) (out1 out2 : PyVal)
    (hkeys : (ov.map Prod.fst).Nodup)
    (hvals : ∀ e ∈ ov, ∃ r w, decompose e.2 = .ok (r, w))
    (hv : WellFormedSetting table v)
    (h1 : define_authform_one table setting v ov = .ok out1)
    (h2 : define_authform_one table setting out1 ov = .ok out2) :
    ∃ ws1 rs1 ws2 rs2,
      out1 = .vDict [("writable", .vList ws1), ("readable", .vList rs1)] ∧
      out2 = .vDict [("writable", .vList ws2), ("readable", .vList rs2)] ∧
      (∀ x, x ∈ ws2 ↔ x ∈ ws1) ∧ (∀ x, x ∈ rs2 ↔ x ∈ rs1) := by
  obtain ⟨ws0, rs0, hinit, hwnd, hrnd, hwstr, hrstr⟩ := resolve_init_wf table setting v hv
  have hrun1 := define_authform_one_wf table setting v ov ws0 rs0 hinit hwstr hrstr hvals
  have hout1 : out1 = .vDict [("writable", .vList (foldFlags false ov ws0).dedup),
      ("readable", .vList (foldFlags true ov rs0).dedup)] := by
    have := hrun1.symm.trans h1
    injection this with h
    exact h.symm
  subst hout1
  have hinit2 : resolve_rwdata_init table setting
      (.vDict [("writable", .vList (foldFlags false ov ws0).dedup),
               ("readable", .vList (foldFlags true ov rs0).dedup)]) =
      .ok [("writable", .vList (foldFlags false ov ws0).dedup),
           ("readable", .vList (foldFlags true ov rs0).dedup)] := by
    simp [resolve_rwdata_init, PyVal.truthy]
  have hrun2 := define_authform_one_wf table setting _ ov
    (foldFlags false ov ws0).dedup (foldFlags true ov rs0).dedup hinit2
    (allVStr_dedup _ (allVStr_foldFlags false ov ws0 hwstr))
    (allVStr_dedup _ (allVStr_foldFlags true ov rs0 hrstr)) hvals
  have hout2 : out2 = .vDict
      [("writable", .vList (foldFlags false ov (foldFlags false ov ws0).dedup).dedup),
       ("readable", .vList (foldFlags true ov (foldFlags true ov rs0).dedup).dedup)] := by
    have := hrun2.symm.trans h2
    injection this with h
    exact h.symm
  refine ⟨(foldFlags false ov ws0).dedup, (foldFlags true ov rs0).dedup,
    (foldFlags false ov (foldFlags false ov ws0).dedup).dedup,
    (foldFlags true ov (foldFlags true ov rs0).dedup).dedup,
    rfl, hout2, ?_, ?_⟩
  · intro x
    have c0 : ∀ e ∈ ov, ws0.count (.vStr e.1) ≤ 1 := fun e _ =>
      List.nodup_iff_count_le_one.mp hwnd _
    have c1 : ∀ e ∈ ov, (foldFlags false ov ws0).dedup.count (.vStr e.1) ≤ 1 := fun e _ =>
      List.nodup_iff_count_le_one.mp (List.nodup_dedup _) _
    have hW1 : x ∈ (foldFlags false ov ws0).dedup ↔
        (∃ e ∈ ov, x = .vStr e.1 ∧ (flagOf false e.2).truthy = true) ∨
        (x ∈ ws0 ∧ ¬∃ e ∈ ov, x = .vStr e.1 ∧ (flagOf false e.2).truthy = false) := by
      rw [List.mem_dedup]
      exact mem_foldFlags false ov ws0 x hkeys c0
    have hW2 : x ∈ (foldFlags false ov (foldFlags false ov ws0).dedup).dedup ↔
        (∃ e ∈ ov, x = .vStr e.1 ∧ (flagOf false e.2).truthy = true) ∨
        (x ∈ (foldFlags false ov ws0).dedup ∧
          ¬∃ e ∈ ov, x = .vStr e.1 ∧ (flagOf false e.2).truthy = false) := by
      rw [List.mem_dedup]
      exact mem_foldFlags false ov _ x hkeys c1
    rw [hW2, hW1]
    exact or_and_absorb
  · intro x
    have c0 : ∀ e ∈ ov, rs0.count (.vStr e.1) ≤ 1 := fun e _ =>
      List.nodup_iff_count_le_one.mp hrnd _
    have c1 : ∀ e ∈ ov, (foldFlags true ov rs0).dedup.count (.vStr e.1) ≤ 1 := fun e _ =>
      List.nodup_iff_count_le_one.mp (List.nodup_dedup _) _
    have hR1 : x ∈ (foldFlags true ov rs0).dedup ↔
        (∃ e ∈ ov, x = .vStr e.1 ∧ (flagOf true e.2).truthy = true) ∨
        (x ∈ rs0 ∧ ¬∃ e ∈ ov, x = .vStr e.1 ∧ (flagOf true e.2).truthy = false) := by
      rw [List.mem_dedup]
      exact mem_foldFlags true ov rs0 x hkeys c0
    have hR2 : x ∈ (foldFlags true ov (foldFlags true ov rs0).dedup).dedup ↔
        (∃ e ∈ ov, x = .vStr e.1 ∧ (flagOf true e.2).truthy = true) ∨
        (x ∈ (foldFlags true ov rs0).dedup ∧
          ¬∃ e ∈ ov, x = .vStr e.1 ∧ (flagOf true e.2).truthy = false) := by
      rw [List.mem_dedup]
      exact mem_foldFlags true ov _ x hkeys c1
    rw [hR2, hR1]
    exact or_and_absorb

/-- Witness for the amended C8: a concrete double resolution. -/
theorem claim_C8_amended_witness :
    ∃ ws1 rs1 ws2 rs2,
      (PyVal.vDict [("writable", .vList [.vStr "bio"]),
                    ("readable", .vList [.vStr "bio"])]) =
        .vDict [("writable", .vList ws1), ("readable", .vList rs1)] ∧
      (PyVal.vDict [("writable", .vList [.vStr "bio"]),
                    ("readable", .vList [.vStr "bio"])]) =
        .vDict [("writable", .vList ws2), ("readable", .vList rs2)] ∧
      (∀ x, x ∈ ws2 ↔ x ∈ ws1) ∧ (∀ x, x ∈ rs2 ↔ x ∈ rs1) :=
  claim_C8_amended [] "register_fields" .vNone [("bio", .vBool true)]
    (.vDict [("writable", .vList [.vStr "bio"]), ("readable", .vList [.vStr "bio"])])
    (.vDict [("writable", .vList [.vStr "bio"]), ("readable", .vList [.vStr "bio"])])
    (by decide)
    (fun e he => by
      rw [List.mem_singleton] at he
      subst he
      exact ⟨.vBool true, .vBool true, rfl⟩)
    (Or.inl ⟨rfl, List.nodup_nil⟩)
    (by decide) (by decide)

end Weppy
